import Mathlib

/-!
Verification development for the AmyPET frame-alignment engine
(`amypet/align.py`) and VOI extraction (`amypet/proc.py`).

The Python code is shallowly embedded: times and voxel values are rationals
(floats in the source), NaN-able voxel values are `Option ℚ` with `none`
standing for NaN, numpy arrays are lists, and Python exceptions are the
`PyErr` error type of `Except`.  External collaborators (SPM/DIPY
registration, `nimpa.aff_dist`, file IO) are abstracted as parameters that
deliver the scalars/paths the core reads from them, exactly at the points
where the source reads them.
-/

namespace AmyPET

/-- A float value that may be NaN (`none`). -/
abbrev PVal := Option ℚ

/-- Value if it is a number, 0 if it is NaN: the effect of
`im[np.isnan(im)] = 0` on one voxel. -/
def denanV (v : PVal) : ℚ := v.getD 0

/-- NaN removal over a whole (flattened) array. -/
def denan (l : List PVal) : List ℚ := l.map denanV

/-- Python exceptions raised by the embedded code paths. -/
inductive PyErr where
  | valueErrorMetric          -- align.py:116/453 'Unrecognised registration metric.'
  | valueErrorTimesNotArray   -- align.py:140 'unrecognised frame times'
  | valueErrorTimesDim        -- align.py:135 'unrecognised dimension for frame times'
  | valueErrorTimesLen        -- align.py:138 number of frames vs time definitions
  | valueErrorMashCount       -- align.py:190 mashed-count check
  | valueErrorMashTotal       -- align.py:199 overall-count check
  | valueErrorBreakTd         -- align.py:893 more than one dynamic break
  | indexErrorBreakTd         -- align.py:895 td[0] on an empty list
  | attributeErrorNdims       -- proc.py:224 `im.ndims` on a numpy array (no such attribute)
  | indexErrorEmptyFrames     -- align.py:49 lfrm[0] on an empty list
  | valueErrorShapeMismatch   -- align.py:55 numpy shape mismatch on assignment
deriving DecidableEq, Repr

/-- align.py:35 `reg_metric_list = ['rss', 'adst']`. -/
def reg_metric_list : List String := ["rss", "adst"]

/-- The fields of `Cnt['align']` that the embedded code reads. -/
structure AlignCnt where
  reg_metric : String
  reg_thrshld : ℚ
  frame_min_dur : ℚ
  decay_corr : Bool
deriving DecidableEq, Repr

/-- align.py:119-122 and 456-459: with DIPY, a configured `rss` metric is
silently switched to `adst`; this is the metric used afterwards. -/
def effectiveMetric (reg_tool reg_metric : String) : String :=
  if reg_tool = "dipy" ∧ reg_metric = "rss" then "adst" else reg_metric

/-- Embedding of `np.argmin`: index of the first occurrence of the minimum
(0 on the empty list). -/
def npArgmin : List ℚ → ℕ
  | [] => 0
  | [_] => 0
  | x :: y :: r =>
    let j := npArgmin (y :: r)
    if x ≤ (y :: r).getD j 0 then 0 else j + 1

/-! ### The `times` argument of `align_frames` (align.py:128-140) -/

/-- The `times` argument: not a list/array at all, or a numpy array of the
given dimensionality (2-D arrays are start/stop rows). -/
inductive TimesArg where
  | notArray
  | oneD (ts : List ℚ)
  | twoD (ts : List (ℚ × ℚ))
  | otherDim (nd : ℕ)
deriving DecidableEq, Repr

/-- align.py:133 frame durations from start/stop rows. -/
def frameDur (ts : List (ℚ × ℚ)) : List ℚ := ts.map fun t => t.2 - t.1

/-- align.py:128-140: validation of `times` against the number of frames. -/
def checkTimes (times : TimesArg) (nfrm : ℕ) : Except PyErr (List (ℚ × ℚ)) :=
  match times with
  | .twoD ts => if (frameDur ts).length ≠ nfrm then .error .valueErrorTimesLen else .ok ts
  | .oneD _ => .error .valueErrorTimesDim
  | .otherDim _ => .error .valueErrorTimesDim
  | .notArray => .error .valueErrorTimesNotArray

/-! ### Frame mashing (align.py:159-201) -/

/-- End time `ts[k][1]` of frame `k`. -/
def endT (ts : List (ℚ × ℚ)) (k : ℕ) : ℚ := (ts.getD k (0, 0)).2

/-- Duration of frame `k`. -/
def durOf (ts : List (ℚ × ℚ)) (k : ℕ) : ℚ := (ts.getD k (0, 0)).2 - (ts.getD k (0, 0)).1

/-- align.py:160 `frms_l = dur < frm_lsize` at index `k`. -/
def isShort (ts : List (ℚ × ℚ)) (L : ℚ) (k : ℕ) : Bool := decide (durOf ts k < L)

/-- Indices of the short frames. -/
def shortIdx (ts : List (ℚ × ℚ)) (L : ℚ) : List ℕ :=
  (List.range ts.length).filter (isShort ts L)

/-- align.py:166 `np.sum(dur[frms_l])`. -/
def shortSum (ts : List (ℚ × ℚ)) (L : ℚ) : ℚ :=
  ((shortIdx ts L).map (durOf ts)).sum

/-- align.py:166 `nset = int(np.floor(np.sum(dur[frms_l])/frm_lsize))`
(`range` of a negative value iterates zero times, hence `toNat`). -/
def nset (ts : List (ℚ × ℚ)) (L : ℚ) : ℕ := (⌊shortSum ts L / L⌋).toNat

/-- align.py:174-175: frame `k` falls in mashing window `i` when
`i*L < ts[k][1] ≤ (i+1)*L` (a condition on the end time only). -/
def inWindow (ts : List (ℚ × ℚ)) (L : ℚ) (i k : ℕ) : Bool :=
  decide (endT ts k ≤ (i + 1 : ℕ) * L) && decide ((i : ℚ) * L < endT ts k)

/-- align.py:178 the frame indices caught by window `i`. -/
def windowGrp (ts : List (ℚ × ℚ)) (L : ℚ) (i : ℕ) : List ℕ :=
  (List.range ts.length).filter (inWindow ts L i)

/-- align.py:173-184 the mashed window groups, in window order. -/
def mashWindows (ts : List (ℚ × ℚ)) (L : ℚ) : List (List ℕ) :=
  (List.range (nset ts L)).map (windowGrp ts L)

/-- align.py:193-196 the singleton groups of the long frames, in index order. -/
def longSingles (ts : List (ℚ × ℚ)) (L : ℚ) : List (List ℕ) :=
  ((List.range ts.length).filter (fun k => !isShort ts L k)).map (fun k => [k])

/-- align.py:159-201: the mashing of frames into groups, including the two
internal cardinality checks (align.py:189 and align.py:198). -/
def mashFrames (ts : List (ℚ × ℚ)) (L : ℚ) : Except PyErr (List (List ℕ)) :=
  let mw := mashWindows ts L
  if (mw.map List.length).sum ≠ (shortIdx ts L).length then .error .valueErrorMashCount
  else
    let ls := longSingles ts L
    if (mw.map List.length).sum + ls.length ≠ ts.length then .error .valueErrorMashTotal
    else .ok (mw ++ ls)

/-! ### Registration externals and the alignment loop (align.py:238-346) -/

/-- Scalars and paths delivered by the external registration of one mashed
frame to the reference: the two root-sum-square norms SPM results are turned
into (align.py:277-278), the six rotation/translation parameters, the
affine file path, and the `nimpa.aff_dist` average sampled distance. -/
structure ExtReg where
  rotSS : ℚ
  trnSS : ℚ
  rt : List ℚ
  faff : String
  dist : ℚ
deriving DecidableEq, Repr

/-- Value of `R[mi]` after the registration loop: only the SPM branch writes
it (align.py:279); with DIPY the array keeps its zero initialisation. -/
def Rval (tool : String) (ext : ℕ → ExtReg) (mi : ℕ) : ℚ :=
  if tool = "spm" then (ext mi).rotSS + (ext mi).trnSS else 0

/-- Value of `D[mi]`: both branches write it (align.py:282, 298). -/
def Dval (tool : String) (ext : ℕ → ExtReg) (mi : ℕ) : ℚ :=
  if tool = "spm" ∨ tool = "dipy" then (ext mi).dist else 0

/-- Row `RT[mi]`: only the SPM branch writes it (align.py:276). -/
def RTrow (tool : String) (ext : ℕ → ExtReg) (mi : ℕ) : List ℚ :=
  if tool = "spm" then (ext mi).rt else List.replicate 6 0

/-- Entry `S[mi]`: affine path, written by both branches (align.py:274, 295). -/
def Sfile (tool : String) (ext : ℕ → ExtReg) (mi : ℕ) : Option String :=
  if tool = "spm" ∨ tool = "dipy" then some (ext mi).faff else none

/-- align.py:307 (and 669): the decision that measured motion warrants
resampling, for the in-scope metric value `m`. -/
def motionExceeds (m : String) (thr r d : ℚ) : Bool :=
  (decide (r > thr) && decide (m = "rss")) || (decide (d > thr) && decide (m = "adst"))

/-- An aligned output image: resampled through a stored affine, copied
unchanged (align.py:336), or the original file referenced unchanged
(align.py:701). -/
inductive AlignedFile where
  | resampled (frame : ℕ) (faff : Option String)
  | copied (frame : ℕ)
  | original (frame : ℕ)
deriving DecidableEq, Repr

/-- The frame index an aligned output was produced from. -/
def frameOf : AlignedFile → ℕ
  | .resampled i _ => i
  | .copied i => i
  | .original i => i

/-- align.py:307-336: the aligned output produced for frame `i` of mashed
group `mi`. -/
def alignedEntry (em tool : String) (thr : ℚ) (ext : ℕ → ExtReg) (mi i : ℕ) : AlignedFile :=
  if motionExceeds em thr (Rval tool ext mi) (Dval tool ext mi)
  then .resampled i (Sfile tool ext mi)
  else .copied i

/-- align.py:301-338 inner loop over the frames of one mashed group:
`faligned[fi]` is written and the counter `fi` advances by one per frame. -/
def innerAlign (em tool : String) (thr : ℚ) (ext : ℕ → ExtReg) (mi : ℕ) :
    List ℕ → ℕ × List (Option AlignedFile) → ℕ × List (Option AlignedFile)
  | [], st => st
  | i :: is, (fi, arr) =>
    innerAlign em tool thr ext mi is (fi + 1, arr.set fi (some (alignedEntry em tool thr ext mi i)))

/-- align.py:258-338 outer loop over the mashed groups (paired with their
index `mi`), threading the `fi` counter and the `faligned` array. -/
def outerAlign (em tool : String) (thr : ℚ) (ext : ℕ → ExtReg) :
    List (ℕ × List ℕ) → ℕ × List (Option AlignedFile) → ℕ × List (Option AlignedFile)
  | [], st => st
  | (mi, grp) :: rest, st =>
    outerAlign em tool thr ext rest (innerAlign em tool thr ext mi grp st)

/-- align.py:304-305 inner loop writing `RTf[i,:] = RT[mi,:]`. -/
def innerRT (tool : String) (ext : ℕ → ExtReg) (mi : ℕ) :
    List ℕ → List (List ℚ) → List (List ℚ)
  | [], a => a
  | i :: is, a => innerRT tool ext mi is (a.set i (RTrow tool ext mi))

/-- Outer loop of the `RTf` writes over all mashed groups. -/
def outerRT (tool : String) (ext : ℕ → ExtReg) :
    List (ℕ × List ℕ) → List (List ℚ) → List (List ℚ)
  | [], a => a
  | (mi, grp) :: rest, a => outerRT tool ext rest (innerRT tool ext mi grp a)

/-- The output dictionary of `align_frames` (align.py:341-346). -/
structure AFOut where
  mashed_frame_idx : List (List ℕ)
  affines : List (Option String)
  metric : List ℚ
  metric2 : List ℚ
  rot_trans : List (List ℚ)
  faligned : List (Option AlignedFile)
deriving DecidableEq, Repr

/-- align.py:75-359 `align_frames`: metric validation and DIPY switch
(115-122), `times` validation (128-140), mashing with its checks (159-201),
then the registration/resampling loop producing the outputs.  `ext`
abstracts the external registration results per mashed-group index. -/
def align_frames (nfrm : ℕ) (times : TimesArg) (Cnt : AlignCnt) (reg_tool : String)
    (ext : ℕ → ExtReg) : Except PyErr AFOut :=
  if Cnt.reg_metric ∈ reg_metric_list then
    let em := effectiveMetric reg_tool Cnt.reg_metric
    match checkTimes times nfrm with
    | .error e => .error e
    | .ok ts =>
      match mashFrames ts Cnt.frame_min_dur with
      | .error e => .error e
      | .ok mfrms =>
        .ok { mashed_frame_idx := mfrms
              affines := (List.range mfrms.length).map (Sfile reg_tool ext)
              metric := (List.range mfrms.length).map (Rval reg_tool ext)
              metric2 := (List.range mfrms.length).map (Dval reg_tool ext)
              rot_trans := outerRT reg_tool ext mfrms.enum
                (List.replicate nfrm (List.replicate 6 0))
              faligned := (outerAlign em reg_tool Cnt.reg_thrshld ext mfrms.enum
                (0, List.replicate nfrm none)).2 }
  else .error .valueErrorMetric

/-! ### `align_suvr` core alignment (align.py:418-703) -/

/-- The pairwise `R` matrix after the combination loop: only the SPM branch
writes entries (align.py:561/587), the diagonal is never written. -/
def Rmat (tool : String) (spmR : ℕ → ℕ → ℚ) (i j : ℕ) : ℚ :=
  if i ≠ j ∧ tool = "spm" then spmR i j else 0

/-- The pairwise `D` matrix: both branches write off-diagonal entries. -/
def Dmat (dist : ℕ → ℕ → ℚ) (i j : ℕ) : ℚ :=
  if i ≠ j then dist i j else 0

/-- align.py:637/641 `np.sum(M, axis=0)` at column `i`. -/
def colSum (M : ℕ → ℕ → ℚ) (n i : ℕ) : ℚ := ((List.range n).map (fun j => M j i)).sum

/-- align.py:641/642 `np.sum(M, axis=1)` at row `i`. -/
def rowSum (M : ℕ → ℕ → ℚ) (n i : ℕ) : ℚ := ((List.range n).map (fun j => M i j)).sum

/-- The per-frame totals `fsum + rsum` whose argmin picks the reference. -/
def refTotals (M : ℕ → ℕ → ℚ) (n : ℕ) : List ℚ :=
  (List.range n).map (fun i => colSum M n i + rowSum M n i)

/-- The parts of the `align_suvr` output the claims are about. -/
structure SuvrOut where
  rfrm : ℕ
  fnii_aligned : List AlignedFile
deriving DecidableEq, Repr

/-- align.py:418-703 core of `align_suvr`: metric validation and DIPY switch
(452-459), reference-frame selection (635-651), and the per-frame
resample-or-take-original loop (662-702).  `spmR`, `dist` and `aff` abstract
the pairwise external registration results. -/
def align_suvr (n : ℕ) (Cnt : AlignCnt) (tool : String) (spmR dist : ℕ → ℕ → ℚ)
    (aff : ℕ → ℕ → String) : Except PyErr SuvrOut :=
  if Cnt.reg_metric ∈ reg_metric_list then
    let em := effectiveMetric tool Cnt.reg_metric
    let R := Rmat tool spmR
    let D := Dmat dist
    let rfrm := npArgmin (refTotals R n)
    .ok { rfrm := rfrm
          fnii_aligned := .original rfrm ::
            ((List.range n).filter (fun i => i ≠ rfrm)).map (fun i =>
              if motionExceeds em Cnt.reg_thrshld (R rfrm i) (D rfrm i)
              then .resampled i (some (aff rfrm i))
              else .original i) }
  else .error .valueErrorMetric

/-! ### Decay correction in `align_break` (align.py:863-907) -/

/-- align.py:871 `decay_corr=Cnt['align']['decay_corr'],` — the trailing
comma makes the local variable a one-element tuple. -/
def decayCorrLocal (flag : Bool) : List Bool := [flag]

/-- align.py:881-906: the decay-correction factor `dcycrr` computed for the
coffee-break branch, `ts` being the series start times and `thalf` the
radionuclide half-life.  `if decay_corr:` tests the truthiness of the local
tuple. -/
noncomputable def break_dcycrr (flag : Bool) (ts : List ℚ) (thalf : ℝ) : Except PyErr ℝ :=
  if decayCorrLocal flag ≠ [] then
    let i_tref := npArgmin ts
    let i_tsrs := (List.range ts.length).filter (fun i => i ≠ i_tref)
    let td := i_tsrs.map (fun i => ts.getD i 0 - ts.getD i_tref 0)
    if td.length > 1 then .error .valueErrorBreakTd
    else
      match td with
      | [] => .error .indexErrorBreakTd
      | t :: _ => .ok (1 / Real.exp (-(Real.log 2 / thalf) * (t : ℝ)))
  else .ok 1

/-! ### `save4dnii` (align.py:41-71) -/

/-- A NIfTI frame as `nimpa.getnii(..., output='all')` presents it. -/
structure NiiFrame where
  shape : List ℕ
  vox : List PVal
  affine : String
  transpose : List ℕ
  flip : List ℤ
deriving DecidableEq, Repr

/-- What `nimpa.array2nii` is handed in `save4dnii`. -/
structure Saved4D where
  data : List (List ℚ)
  affine : String
  fnii : String
  descrip : String
  trnsp : ℕ × ℕ × ℕ
  flip : List ℤ
deriving DecidableEq, Repr

/-- align.py:41-71 `save4dnii`: assemble the 4-D array from the frame files
in list order with NaNs zeroed, save with the first frame's geometry, and
return the array iff `retarr`. -/
def save4dnii (lfrm : List NiiFrame) (fnii : String)
    (descrip : String := "AmyPET generated") (retarr : Bool := true) :
    Except PyErr (Saved4D × Option (List (List ℚ))) :=
  match lfrm with
  | [] => .error .indexErrorEmptyFrames
  | tmp :: _ =>
    if lfrm.all (fun f => f.shape = tmp.shape) then
      .ok ({ data := lfrm.map (fun f => denan f.vox)
             affine := tmp.affine
             fnii := fnii
             descrip := descrip
             trnsp := (tmp.transpose.indexOf 0, tmp.transpose.indexOf 1, tmp.transpose.indexOf 2)
             flip := tmp.flip },
           if retarr then some (lfrm.map (fun f => denan f.vox)) else none)
    else .error .valueErrorShapeMismatch

/-! ### `extract_vois` (proc.py:103-238) -/

/-- A PET image array with its numpy dimensionality. -/
inductive ImPet where
  | d3 (vox : List ℚ)
  | d4 (frames : List (List ℚ))
  | dOther (nd : ℕ) (vox : List ℚ)
deriving DecidableEq, Repr

/-- proc.py:196-200 the accumulated boolean ROI mask over the labels. -/
def rmskOf (lbls : List ℚ) (labels : List ℚ) : List Bool :=
  lbls.map (fun v => labels.any (fun r => decide (v = r)))

/-- proc.py:203-206 `msk2`: the bool mask itself (as 0/1) or its
element-wise product with the atlas mask. -/
def msk2Of (rm : List Bool) (amsk : Option (List ℚ)) : List ℚ :=
  match amsk with
  | none => rm.map (fun b => if b then (1 : ℚ) else 0)
  | some a => (rm.zip a).map (fun p => if p.1 then p.2 else 0)

/-- Masked voxel sum of one (flattened) 3-D volume. -/
def dotQ (f m : List ℚ) : ℚ := ((f.zip m).map (fun p => p.1 * p.2)).sum

/-- Per-VOI record of `extract_vois` (proc.py:231); `sum`/`avg` are
per-frame vectors, produced by the reachable 4-D branch. -/
structure VoiRes where
  vox_no : ℚ
  sum : List ℚ
  avg : List ℚ
deriving DecidableEq, Repr

/-- proc.py:191-234 the VOI loop.  For a 4-D image the per-frame masked sums
are computed (proc.py:218-222); for every other numpy image the `elif`
at proc.py:224 evaluates `im.ndims`, an attribute numpy arrays do not have
(the attribute is `ndim`, used correctly at proc.py:218), raising
AttributeError. -/
def extractLoop (im : ImPet) (lbls : List ℚ) (amsk : Option (List ℚ)) :
    List (String × List ℚ) → Except PyErr (List (String × VoiRes))
  | [] => .ok []
  | (name, labels) :: rest =>
    let m2 := msk2Of (rmskOf lbls labels) amsk
    let vx := m2.sum
    match im with
    | .d4 frames =>
      let es := frames.map (fun f => dotQ f m2)
      match extractLoop im lbls amsk rest with
      | .error e => .error e
      | .ok r => .ok ((name, ⟨vx, es, es.map (· / vx)⟩) :: r)
    | _ => .error .attributeErrorNdims

/-- proc.py:103-238 `extract_vois` for a PET image and an atlas both passed
as numpy arrays.  The result also carries the final states of the two
caller-owned arrays: `lbls` aliases the caller's atlas array and
proc.py:172 `lbls[np.isnan(lbls)] = 0` writes zeros over its NaN entries in
place, while the PET array is only ever read. -/
def extract_vois (impet : ImPet) (atlas : List PVal) (voi_dct : List (String × List ℚ))
    (atlas_mask : Option (List ℚ)) :
    Except PyErr (List (String × VoiRes)) × List PVal × ImPet :=
  let atlasAfter := atlas.map (fun v => some (denanV v))
  let lbls := denan atlas
  (extractLoop impet lbls atlas_mask voi_dct, atlasAfter, impet)

/-! ### Helper notions used to state and prove the claims -/

/-- Sequential writes `arr[s+k] := some (vals[k])` — the effect of a loop
with a running counter writing consecutive cells of a preallocated array. -/
def writeSeq {α : Type*} : List α → ℕ → List (Option α) → List (Option α)
  | [], _, arr => arr
  | v :: vs, s, arr => writeSeq vs (s + 1) (arr.set s (some v))

/-- All aligned entries produced by the outer loop, in traversal order. -/
def entriesOf (em tool : String) (thr : ℚ) (ext : ℕ → ExtReg)
    (pairs : List (ℕ × List ℕ)) : List AlignedFile :=
  (pairs.map (fun p => p.2.map (alignedEntry em tool thr ext p.1))).flatten

/-- Number of flattened elements strictly before group `gi`. -/
def offsetOf {α : Type*} (gs : List (List α)) (gi : ℕ) : ℕ :=
  ((gs.take gi).map List.length).sum

instance exceptDecidableEq {ε α : Type*} [DecidableEq ε] [DecidableEq α] :
    DecidableEq (Except ε α) := fun a b =>
  match a, b with
  | .error e, .error e' =>
    if h : e = e' then isTrue (by rw [h]) else isFalse (fun hc => h (Except.error.inj hc))
  | .ok x, .ok y =>
    if h : x = y then isTrue (by rw [h]) else isFalse (fun hc => h (Except.ok.inj hc))
  | .error _, .ok _ => isFalse (fun hc => Except.noConfusion hc)
  | .ok _, .error _ => isFalse (fun hc => Except.noConfusion hc)

/-- Whether an embedded call ended in a raised exception. -/
def isErr {ε α : Type*} : Except ε α → Bool
  | .error _ => true
  | .ok _ => false

/-- The `times` arguments the claim about input validation is about: not a
list/array, not 2-dimensional, or 2-dimensional with the wrong length. -/
def badTimes (times : TimesArg) (nfrm : ℕ) : Bool :=
  match times with
  | .twoD ts => decide (ts.length ≠ nfrm)
  | _ => true

section Lemmas

/-! ### `npArgmin` -/

theorem npArgmin_lt_length : ∀ (l : List ℚ), l ≠ [] → npArgmin l < l.length := by
  intro l
  induction l with
  | nil => intro h; exact absurd rfl h
  | cons x t ih =>
    intro _
    cases t with
    | nil => simp [npArgmin]
    | cons y r =>
      rw [npArgmin]
      split
      · simp
      · have := ih (by simp)
        simpa using Nat.succ_lt_succ this

theorem npArgmin_le : ∀ (l : List ℚ) (i : ℕ), i < l.length →
    l.getD (npArgmin l) 0 ≤ l.getD i 0 := by
  intro l
  induction l with
  | nil => intro i h; simp at h
  | cons x t ih =>
    intro i hi
    cases t with
    | nil =>
      have : i = 0 := by simpa using Nat.lt_one_iff.mp (by simpa using hi)
      subst this
      simp [npArgmin]
    | cons y r =>
      rw [npArgmin]
      split
      · rename_i hle
        cases i with
        | zero => simp
        | succ i' =>
          have := ih i' (by simpa using hi)
          calc (x :: y :: r).getD 0 0 = x := rfl
            _ ≤ (y :: r).getD (npArgmin (y :: r)) 0 := hle
            _ ≤ (y :: r).getD i' 0 := this
            _ = (x :: y :: r).getD (i' + 1) 0 := rfl
      · rename_i hlt
        push_neg at hlt
        cases i with
        | zero =>
          simpa using le_of_lt hlt
        | succ i' =>
          have := ih i' (by simpa using hi)
          simpa using this

theorem npArgmin_first : ∀ (l : List ℚ) (i : ℕ), i < npArgmin l →
    l.getD (npArgmin l) 0 < l.getD i 0 := by
  intro l
  induction l with
  | nil => intro i h; simp [npArgmin] at h
  | cons x t ih =>
    intro i hi
    cases t with
    | nil => simp [npArgmin] at hi
    | cons y r =>
      rw [npArgmin] at hi ⊢
      split at hi
      · omega
      · rename_i hlt
        push_neg at hlt
        rw [if_neg (by push_neg; exact hlt)]
        cases i with
        | zero => simpa using hlt
        | succ i' =>
          have := ih i' (by omega)
          simpa using this

/-! ### `writeSeq` and the alignment loops -/

theorem writeSeq_length {α : Type*} : ∀ (vals : List α) (s : ℕ) (arr : List (Option α)),
    (writeSeq vals s arr).length = arr.length := by
  intro vals
  induction vals with
  | nil => intro s arr; rfl
  | cons v vs ih => intro s arr; rw [writeSeq, ih]; simp

theorem writeSeq_append {α : Type*} : ∀ (v1 v2 : List α) (s : ℕ) (arr : List (Option α)),
    writeSeq (v1 ++ v2) s arr = writeSeq v2 (s + v1.length) (writeSeq v1 s arr) := by
  intro v1
  induction v1 with
  | nil => intro v2 s arr; simp [writeSeq]
  | cons x t ih =>
    intro v2 s arr
    show writeSeq (t ++ v2) (s + 1) _ = _
    rw [ih]
    congr 1
    simp
    omega

theorem writeSeq_getElem? {α : Type*} : ∀ (vals : List α) (s : ℕ) (arr : List (Option α)),
    s + vals.length ≤ arr.length → ∀ j : ℕ,
      (writeSeq vals s arr)[j]? =
        if s ≤ j ∧ j < s + vals.length then (vals[j - s]?).map some else arr[j]? := by
  intro vals
  induction vals with
  | nil =>
    intro s arr _ j
    rw [if_neg (by simp)]
    rfl
  | cons v vs ih =>
    intro s arr h j
    have hlen : s < arr.length := by simp at h; omega
    have h' : s + 1 + vs.length ≤ (arr.set s (some v)).length := by simp at h ⊢; omega
    rw [writeSeq, ih _ _ h' j]
    by_cases hj : j = s
    · subst hj
      rw [if_neg (by omega), if_pos (by simp)]
      simp [List.getElem?_set, hlen]
    · by_cases hin : s + 1 ≤ j ∧ j < s + 1 + vs.length
      · rw [if_pos hin, if_pos (by simp only [List.length_cons]; omega)]
        have hidx : j - s = (j - (s + 1)) + 1 := by omega
        rw [hidx, List.getElem?_cons_succ]
      · rw [if_neg hin, if_neg (by simp only [List.length_cons]; omega)]
        rw [List.getElem?_set]
        simp [Ne.symm hj]

theorem innerAlign_eq (em tool : String) (thr : ℚ) (ext : ℕ → ExtReg) (mi : ℕ) :
    ∀ (grp : List ℕ) (fi : ℕ) (arr : List (Option AlignedFile)),
      innerAlign em tool thr ext mi grp (fi, arr) =
        (fi + grp.length, writeSeq (grp.map (alignedEntry em tool thr ext mi)) fi arr) := by
  intro grp
  induction grp with
  | nil => intro fi arr; rfl
  | cons i is ih =>
    intro fi arr
    rw [innerAlign, ih]
    simp only [Prod.mk.injEq]
    refine ⟨by simp; omega, ?_⟩
    rfl

theorem outerAlign_eq (em tool : String) (thr : ℚ) (ext : ℕ → ExtReg) :
    ∀ (pairs : List (ℕ × List ℕ)) (fi : ℕ) (arr : List (Option AlignedFile)),
      outerAlign em tool thr ext pairs (fi, arr) =
        (fi + (entriesOf em tool thr ext pairs).length,
         writeSeq (entriesOf em tool thr ext pairs) fi arr) := by
  intro pairs
  induction pairs with
  | nil => intro fi arr; simp [outerAlign, entriesOf, writeSeq]
  | cons p rest ih =>
    intro fi arr
    obtain ⟨mi, grp⟩ := p
    rw [outerAlign, innerAlign_eq, ih]
    have hent : entriesOf em tool thr ext ((mi, grp) :: rest) =
        grp.map (alignedEntry em tool thr ext mi) ++ entriesOf em tool thr ext rest := by
      simp [entriesOf]
    rw [hent, writeSeq_append]
    simp only [Prod.mk.injEq]
    refine ⟨by simp; omega, ?_⟩
    simp

theorem flatten_getElem?_offset {α : Type*} :
    ∀ (gs : List (List α)) (gi : ℕ) (grp : List α) (pi : ℕ) (a : α),
      gs[gi]? = some grp → grp[pi]? = some a →
      gs.flatten[offsetOf gs gi + pi]? = some a := by
  intro gs
  induction gs with
  | nil => intro gi grp pi a hg; simp at hg
  | cons g rest ih =>
    intro gi grp pi a hg hp
    cases gi with
    | zero =>
      simp at hg
      subst hg
      have hpi : pi < g.length := by
        by_contra hc
        rw [List.getElem?_eq_none (by omega)] at hp
        exact Option.noConfusion hp
      show (g ++ rest.flatten)[offsetOf (g :: rest) 0 + pi]? = some a
      have : offsetOf (g :: rest) 0 = 0 := by simp [offsetOf]
      rw [this, Nat.zero_add, List.getElem?_append, if_pos hpi]
      exact hp
    | succ gi' =>
      simp only [List.getElem?_cons_succ] at hg
      have hoff : offsetOf (g :: rest) (gi' + 1) = g.length + offsetOf rest gi' := by
        simp [offsetOf]
      show (g ++ rest.flatten)[offsetOf (g :: rest) (gi' + 1) + pi]? = some a
      rw [hoff, List.getElem?_append, if_neg (by omega)]
      have : g.length + offsetOf rest gi' + pi - g.length = offsetOf rest gi' + pi := by omega
      rw [this]
      exact ih gi' grp pi a hg hp

/-! ### The `RTf` write loops -/

theorem innerRT_length (tool : String) (ext : ℕ → ExtReg) (mi : ℕ) :
    ∀ (grp : List ℕ) (a : List (List ℚ)), (innerRT tool ext mi grp a).length = a.length := by
  intro grp
  induction grp with
  | nil => intro a; rfl
  | cons i is ih => intro a; rw [innerRT, ih]; simp

theorem outerRT_length (tool : String) (ext : ℕ → ExtReg) :
    ∀ (pairs : List (ℕ × List ℕ)) (a : List (List ℚ)),
      (outerRT tool ext pairs a).length = a.length := by
  intro pairs
  induction pairs with
  | nil => intro a; rfl
  | cons p rest ih =>
    intro a
    obtain ⟨mi, grp⟩ := p
    rw [outerRT, ih, innerRT_length]

theorem innerRT_getElem?_notmem (tool : String) (ext : ℕ → ExtReg) (mi : ℕ) :
    ∀ (grp : List ℕ) (a : List (List ℚ)) (i : ℕ), i ∉ grp →
      (innerRT tool ext mi grp a)[i]? = a[i]? := by
  intro grp
  induction grp with
  | nil => intro a i _; rfl
  | cons x is ih =>
    intro a i hi
    rw [innerRT, ih _ _ (fun hc => hi (List.mem_cons_of_mem _ hc))]
    rw [List.getElem?_set, if_neg (fun hc => hi (show i ∈ x :: is by
      rw [← hc]; exact List.mem_cons_self x is))]

theorem innerRT_getElem?_mem (tool : String) (ext : ℕ → ExtReg) (mi : ℕ) :
    ∀ (grp : List ℕ) (a : List (List ℚ)) (i : ℕ), i ∈ grp → i < a.length →
      (innerRT tool ext mi grp a)[i]? = some (RTrow tool ext mi) := by
  intro grp
  induction grp with
  | nil => intro a i hi; exact absurd hi (List.not_mem_nil i)
  | cons x is ih =>
    intro a i hi hlen
    by_cases hmem : i ∈ is
    · rw [innerRT, ih _ _ hmem (by simpa using hlen)]
    · have hx : i = x := by
        rcases List.mem_cons.mp hi with h | h
        · exact h
        · exact absurd h hmem
      subst hx
      rw [innerRT, innerRT_getElem?_notmem _ _ _ _ _ _ hmem]
      rw [List.getElem?_set, if_pos rfl, if_pos hlen]

theorem outerRT_getElem?_notmem (tool : String) (ext : ℕ → ExtReg) :
    ∀ (pairs : List (ℕ × List ℕ)) (a : List (List ℚ)) (i : ℕ),
      i ∉ (pairs.map Prod.snd).flatten →
      (outerRT tool ext pairs a)[i]? = a[i]? := by
  intro pairs
  induction pairs with
  | nil => intro a i _; rfl
  | cons p rest ih =>
    intro a i hi
    obtain ⟨mi, grp⟩ := p
    simp only [List.map_cons, List.flatten_cons, List.mem_append] at hi
    push_neg at hi
    rw [outerRT, ih _ _ hi.2, innerRT_getElem?_notmem _ _ _ _ _ _ hi.1]

theorem outerRT_getElem?_mem (tool : String) (ext : ℕ → ExtReg) :
    ∀ (pairs : List (ℕ × List ℕ)) (a : List (List ℚ)) (mi : ℕ) (grp : List ℕ) (i : ℕ),
      ((pairs.map Prod.snd).flatten).Nodup → (mi, grp) ∈ pairs → i ∈ grp → i < a.length →
      (outerRT tool ext pairs a)[i]? = some (RTrow tool ext mi) := by
  intro pairs
  induction pairs with
  | nil => intro a mi grp i _ hp; exact absurd hp (List.not_mem_nil _)
  | cons p rest ih =>
    intro a mi grp i hnd hp hi hlen
    obtain ⟨m0, g0⟩ := p
    simp only [List.map_cons, List.flatten_cons] at hnd
    have hnd' := (List.nodup_append.mp hnd).2.1
    have hdisj := (List.nodup_append.mp hnd).2.2
    rcases List.mem_cons.mp hp with heq | hmem
    · cases heq
      have hnotin : i ∉ (rest.map Prod.snd).flatten := fun hc => hdisj hi hc
      rw [outerRT, outerRT_getElem?_notmem _ _ _ _ _ hnotin]
      exact innerRT_getElem?_mem _ _ _ _ _ _ hi hlen
    · rw [outerRT]
      exact ih _ mi grp i hnd' hmem hi (by rw [innerRT_length]; exact hlen)

/-! ### Inversion of the embedded functions on success -/

theorem sum_map_one {α : Type*} (l : List α) : (l.map (fun _ => (1 : ℕ))).sum = l.length := by
  induction l with
  | nil => rfl
  | cons x t ih => rw [List.map_cons, List.sum_cons, ih, List.length_cons]; omega

theorem checkTimes_ok_inv {times : TimesArg} {nfrm : ℕ} {ts : List (ℚ × ℚ)}
    (h : checkTimes times nfrm = .ok ts) : times = .twoD ts ∧ ts.length = nfrm := by
  cases times with
  | twoD ts' =>
    simp only [checkTimes] at h
    by_cases h1 : (frameDur ts').length ≠ nfrm
    · rw [if_pos h1] at h
      exact Except.noConfusion h
    · rw [if_neg h1] at h
      injection h with h
      subst h
      refine ⟨rfl, ?_⟩
      have : (frameDur ts').length = ts'.length := by simp [frameDur]
      omega
  | oneD l => exact Except.noConfusion h
  | otherDim nd => exact Except.noConfusion h
  | notArray => exact Except.noConfusion h

theorem mashFrames_ok_inv {ts : List (ℚ × ℚ)} {L : ℚ} {mfrms : List (List ℕ)}
    (h : mashFrames ts L = .ok mfrms) :
    mfrms = mashWindows ts L ++ longSingles ts L ∧
    ((mashWindows ts L).map List.length).sum = (shortIdx ts L).length ∧
    ((mashWindows ts L).map List.length).sum + (longSingles ts L).length = ts.length := by
  unfold mashFrames at h
  by_cases h1 : ((mashWindows ts L).map List.length).sum ≠ (shortIdx ts L).length
  · rw [if_pos h1] at h
    exact Except.noConfusion h
  · rw [if_neg h1] at h
    by_cases h2 : ((mashWindows ts L).map List.length).sum + (longSingles ts L).length ≠ ts.length
    · rw [if_pos h2] at h
      exact Except.noConfusion h
    · rw [if_neg h2] at h
      injection h with h
      subst h
      exact ⟨rfl, by omega, by omega⟩

theorem mashFrames_flatten_length {ts : List (ℚ × ℚ)} {L : ℚ} {mfrms : List (List ℕ)}
    (h : mashFrames ts L = .ok mfrms) : (mfrms.map List.length).sum = ts.length := by
  obtain ⟨hstruct, _, htot⟩ := mashFrames_ok_inv h
  subst hstruct
  rw [List.map_append, List.sum_append]
  have hone : ((longSingles ts L).map List.length).sum = (longSingles ts L).length := by
    unfold longSingles
    rw [List.map_map]
    have : (List.length ∘ fun k : ℕ => [k]) = fun _ => 1 := by
      funext k; rfl
    rw [this, sum_map_one, List.length_map]
  omega

theorem align_frames_ok_inv {nfrm : ℕ} {times : TimesArg} {Cnt : AlignCnt} {tool : String}
    {ext : ℕ → ExtReg} {o : AFOut}
    (h : align_frames nfrm times Cnt tool ext = .ok o) :
    Cnt.reg_metric ∈ reg_metric_list ∧
    ∃ ts, checkTimes times nfrm = .ok ts ∧
      mashFrames ts Cnt.frame_min_dur = .ok o.mashed_frame_idx ∧
      o.faligned = (outerAlign (effectiveMetric tool Cnt.reg_metric) tool Cnt.reg_thrshld ext
        o.mashed_frame_idx.enum (0, List.replicate nfrm none)).2 ∧
      o.rot_trans = outerRT tool ext o.mashed_frame_idx.enum
        (List.replicate nfrm (List.replicate 6 0)) := by
  unfold align_frames at h
  split_ifs at h with hm
  · cases hct : checkTimes times nfrm with
    | error e => rw [hct] at h; exact Except.noConfusion h
    | ok ts =>
      rw [hct] at h
      dsimp only at h
      cases hmf : mashFrames ts Cnt.frame_min_dur with
      | error e => rw [hmf] at h; exact Except.noConfusion h
      | ok mfrms =>
        rw [hmf] at h
        dsimp only at h
        injection h with h
        subst h
        exact ⟨hm, ts, rfl, hmf, rfl, rfl⟩

theorem align_suvr_ok_inv {n : ℕ} {Cnt : AlignCnt} {tool : String} {spmR dist : ℕ → ℕ → ℚ}
    {aff : ℕ → ℕ → String} {o : SuvrOut}
    (h : align_suvr n Cnt tool spmR dist aff = .ok o) :
    Cnt.reg_metric ∈ reg_metric_list ∧
    o.rfrm = npArgmin (refTotals (Rmat tool spmR) n) ∧
    o.fnii_aligned = .original o.rfrm ::
      ((List.range n).filter (fun i => i ≠ o.rfrm)).map (fun i =>
        if motionExceeds (effectiveMetric tool Cnt.reg_metric) Cnt.reg_thrshld
            (Rmat tool spmR o.rfrm i) (Dmat dist o.rfrm i)
        then AlignedFile.resampled i (some (aff o.rfrm i))
        else AlignedFile.original i) := by
  unfold align_suvr at h
  split_ifs at h with hm
  · injection h with h
    subst h
    exact ⟨hm, rfl, rfl⟩

/-! ### Counting lemmas for the mashing partition -/

theorem count_filter_range (p : ℕ → Bool) (n k : ℕ) :
    ((List.range n).filter p).count k = if k < n ∧ p k then 1 else 0 := by
  induction n with
  | zero => simp
  | succ n ih =>
    rw [List.range_succ, List.filter_append, List.count_append, ih]
    have hsing : (List.filter p [n]).count k = if k = n ∧ p n = true then 1 else 0 := by
      rw [List.filter_singleton]
      cases hpn : p n
      · simp
      · rw [cond_true, List.count_singleton']
        by_cases hk : k = n
        · subst hk; simp
        · rw [if_neg (fun hc => hk hc.symm), if_neg (fun hc => hk hc.1)]
    rw [hsing]
    by_cases h1 : k < n ∧ p k = true
    · rw [if_pos h1, if_neg (fun hc => absurd hc.1 (by omega)), if_pos ⟨by omega, h1.2⟩]
    · rw [if_neg h1, Nat.zero_add]
      by_cases hk : k = n
      · subst hk
        by_cases hp : p k = true
        · rw [if_pos ⟨rfl, hp⟩, if_pos ⟨by omega, hp⟩]
        · rw [if_neg (fun hc => hp hc.2), if_neg (fun hc => hp hc.2)]
      · rw [if_neg (fun hc => hk hc.1),
          if_neg (by intro hc; exact h1 ⟨by omega, hc.2⟩)]

theorem flatten_map_singleton {α : Type*} (l : List α) :
    (l.map (fun k => [k])).flatten = l := by
  induction l with
  | nil => rfl
  | cons x t ih => simp [ih]

theorem list_sum_range_eq (f : ℕ → ℕ) (n : ℕ) :
    ((List.range n).map f).sum = ∑ i ∈ Finset.range n, f i := by
  induction n with
  | zero => rfl
  | succ n ih =>
    rw [List.range_succ, List.map_append, List.sum_append, ih, Finset.sum_range_succ]
    simp

theorem countP_range_eq (p : ℕ → Bool) (n : ℕ) :
    List.countP p (List.range n) = ∑ k ∈ Finset.range n, if p k then 1 else 0 := by
  induction n with
  | zero => rfl
  | succ n ih =>
    rw [List.range_succ, List.countP_append, ih, Finset.sum_range_succ]
    simp [List.countP_cons]

theorem sum_countP_range (w : ℕ → ℕ → Bool) (m n : ℕ) :
    ∑ i ∈ Finset.range m, List.countP (fun k => w i k) (List.range n) =
    ∑ k ∈ Finset.range n, ∑ i ∈ Finset.range m, if w i k then 1 else 0 := by
  rw [Finset.sum_congr rfl (fun i _ => countP_range_eq (fun k => w i k) n)]
  exact Finset.sum_comm

theorem sum_ite_le_one_of_unique {m : ℕ} {q : ℕ → Bool}
    (huniq : ∀ i i', i < m → i' < m → q i = true → q i' = true → i = i') :
    (∑ i ∈ Finset.range m, if q i then 1 else 0) ≤ 1 := by
  rw [← Finset.card_filter]
  apply Finset.card_le_one.mpr
  intro a ha b hb
  rw [Finset.mem_filter, Finset.mem_range] at ha hb
  exact huniq a b ha.1 hb.1 ha.2 hb.2

theorem forall_one_of_sum_eq_card {S : Finset ℕ} {c : ℕ → ℕ}
    (hle : ∀ k ∈ S, c k ≤ 1) (hsum : ∑ k ∈ S, c k = S.card) : ∀ k ∈ S, c k = 1 := by
  by_contra hc
  push_neg at hc
  obtain ⟨k0, hk0, hne⟩ := hc
  have hlt : c k0 < 1 := lt_of_le_of_ne (hle k0 hk0) hne
  have hstrict : ∑ k ∈ S, c k < ∑ k ∈ S, 1 :=
    Finset.sum_lt_sum (fun i hi => hle i hi) ⟨k0, hk0, hlt⟩
  rw [← Finset.card_eq_sum_ones] at hstrict
  omega

theorem inWindow_disjoint {ts : List (ℚ × ℚ)} {L : ℚ} (hL : 0 < L) {i i' k : ℕ}
    (h1 : inWindow ts L i k = true) (h2 : inWindow ts L i' k = true) : i = i' := by
  unfold inWindow at h1 h2
  simp only [Bool.and_eq_true, decide_eq_true_eq] at h1 h2
  by_contra hne
  rcases Nat.lt_or_ge i i' with hlt | hge
  · have hcast : ((i : ℚ) + 1) ≤ (i' : ℚ) := by exact_mod_cast Nat.succ_le_of_lt hlt
    have hc : ((i : ℚ) + 1) * L ≤ (i' : ℚ) * L :=
      mul_le_mul_of_nonneg_right hcast (le_of_lt hL)
    have h1' : endT ts k ≤ ((i : ℚ) + 1) * L := by
      have := h1.1
      push_cast at this
      linarith
    linarith [h2.2]
  · have hlt' : i' < i := by omega
    have hcast : ((i' : ℚ) + 1) ≤ (i : ℚ) := by exact_mod_cast Nat.succ_le_of_lt hlt'
    have hc : ((i' : ℚ) + 1) * L ≤ (i : ℚ) * L :=
      mul_le_mul_of_nonneg_right hcast (le_of_lt hL)
    have h2' : endT ts k ≤ ((i' : ℚ) + 1) * L := by
      have := h2.1
      push_cast at this
      linarith
    linarith [h1.2]

theorem mashFrames_partition (ts : List (ℚ × ℚ)) (L : ℚ) (mfrms : List (List ℕ))
    (hL : 0 < L)
    (hlong : ∀ k, k < ts.length → isShort ts L k = false →
      ∀ i, i < nset ts L → inWindow ts L i k = false)
    (hok : mashFrames ts L = .ok mfrms) :
    (∀ k, k < ts.length → mfrms.flatten.count k = 1) ∧
    (∀ k, k < ts.length → isShort ts L k = false → [k] ∈ mfrms) := by
  obtain ⟨hstruct, hchk, _⟩ := mashFrames_ok_inv hok
  subst hstruct
  -- window-catch count of a frame index
  have hwumem : ∀ k, k < ts.length →
      ((mashWindows ts L).map (List.count k)).sum =
        ∑ i ∈ Finset.range (nset ts L), if inWindow ts L i k = true then 1 else 0 := by
    intro k hk
    unfold mashWindows
    rw [List.map_map]
    have hcomp : (List.count k ∘ windowGrp ts L) =
        fun i => if k < ts.length ∧ inWindow ts L i k = true then 1 else 0 := by
      funext i
      exact count_filter_range (inWindow ts L i) ts.length k
    rw [hcomp, list_sum_range_eq]
    exact Finset.sum_congr rfl (fun i _ => by
      by_cases hw : inWindow ts L i k = true
      · rw [if_pos ⟨hk, hw⟩, if_pos hw]
      · rw [if_neg (fun hc => hw hc.2), if_neg hw])
  -- the first cardinality check forces every short frame into exactly one window
  have hshort_one : ∀ k, k < ts.length → isShort ts L k = true →
      (∑ i ∈ Finset.range (nset ts L), if inWindow ts L i k = true then 1 else 0) = 1 := by
    have hLHS : ((mashWindows ts L).map List.length).sum =
        ∑ k ∈ Finset.range ts.length,
          ∑ i ∈ Finset.range (nset ts L), if inWindow ts L i k = true then 1 else 0 := by
      unfold mashWindows
      rw [List.map_map]
      have hcomp : (List.length ∘ windowGrp ts L) =
          fun i => List.countP (fun k => inWindow ts L i k) (List.range ts.length) := by
        funext i
        rw [Function.comp_apply, List.countP_eq_length_filter]
        rfl
      rw [hcomp, list_sum_range_eq, sum_countP_range]
    have hRHS : (shortIdx ts L).length =
        ∑ k ∈ Finset.range ts.length, if isShort ts L k = true then 1 else 0 := by
      unfold shortIdx
      rw [← List.countP_eq_length_filter, countP_range_eq]
    have hsum0 : ∑ k ∈ Finset.range ts.length,
        (∑ i ∈ Finset.range (nset ts L), if inWindow ts L i k = true then 1 else 0) =
        ∑ k ∈ Finset.range ts.length,
          (if isShort ts L k = true then
            ∑ i ∈ Finset.range (nset ts L), if inWindow ts L i k = true then 1 else 0
          else 0) := by
      refine Finset.sum_congr rfl (fun k hk => ?_)
      by_cases hs : isShort ts L k = true
      · rw [if_pos hs]
      · rw [if_neg hs]
        refine Finset.sum_eq_zero (fun i hi => ?_)
        rw [Finset.mem_range] at hi
        rw [Finset.mem_range] at hk
        rw [hlong k hk (by simpa using hs) i hi]
        simp
    have hle : ∀ k ∈ (Finset.range ts.length).filter (fun k => isShort ts L k = true),
        (∑ i ∈ Finset.range (nset ts L), if inWindow ts L i k = true then 1 else 0) ≤ 1 := by
      intro k _
      exact sum_ite_le_one_of_unique (fun i i' _ _ h1 h2 => inWindow_disjoint hL h1 h2)
    have hcard : ∑ k ∈ (Finset.range ts.length).filter (fun k => isShort ts L k = true),
        (∑ i ∈ Finset.range (nset ts L), if inWindow ts L i k = true then 1 else 0) =
        ((Finset.range ts.length).filter (fun k => isShort ts L k = true)).card := by
      rw [Finset.sum_filter, ← hsum0, ← hLHS, Finset.card_filter, ← hRHS]
      exact hchk
    intro k hk hs
    exact forall_one_of_sum_eq_card hle hcard k
      (Finset.mem_filter.mpr ⟨Finset.mem_range.mpr hk, hs⟩)
  constructor
  · intro k hk
    rw [List.flatten_append, List.count_append]
    have hls : (longSingles ts L).flatten.count k =
        if k < ts.length ∧ (!isShort ts L k) = true then 1 else 0 := by
      unfold longSingles
      rw [flatten_map_singleton]
      exact count_filter_range (fun j => !isShort ts L j) ts.length k
    rw [List.count_flatten, hwumem k hk, hls]
    by_cases hs : isShort ts L k = true
    · rw [hshort_one k hk hs, if_neg (by simp [hs])]
    · have hz : (∑ i ∈ Finset.range (nset ts L), if inWindow ts L i k = true then 1 else 0)
          = 0 := by
        refine Finset.sum_eq_zero (fun i hi => ?_)
        rw [Finset.mem_range] at hi
        rw [hlong k hk (by simpa using hs) i hi]
        simp
      rw [hz, if_pos ⟨hk, by simpa using hs⟩]
  · intro k hk hs
    refine List.mem_append_right _ ?_
    unfold longSingles
    exact List.mem_map_of_mem _ (List.mem_filter.mpr ⟨List.mem_range.mpr hk, by simp [hs]⟩)

/-! ### Structure of `faligned` positions -/

theorem flatten_getElem?_inv {α : Type*} : ∀ (gs : List (List α)) (j : ℕ) (a : α),
    gs.flatten[j]? = some a →
    ∃ gi grp pi, gs[gi]? = some grp ∧ grp[pi]? = some a ∧ j = offsetOf gs gi + pi := by
  intro gs
  induction gs with
  | nil => intro j a h; simp at h
  | cons g rest ih =>
    intro j a h
    rw [List.flatten_cons, List.getElem?_append] at h
    by_cases hj : j < g.length
    · rw [if_pos hj] at h
      exact ⟨0, g, j, by simp, h, by simp [offsetOf]⟩
    · rw [if_neg hj] at h
      obtain ⟨gi, grp, pi, h1, h2, h3⟩ := ih _ _ h
      refine ⟨gi + 1, grp, pi, by simpa using h1, h2, ?_⟩
      have hoff : offsetOf (g :: rest) (gi + 1) = g.length + offsetOf rest gi := by
        simp [offsetOf]
      omega

theorem enum_map_snd' {α : Type*} (l : List α) : l.enum.map Prod.snd = l := by
  simp

theorem offsetOf_map_enum {β : Type*} (mfrms : List (List ℕ)) (f : ℕ × List ℕ → List β)
    (hf : ∀ p, (f p).length = p.2.length) (gi : ℕ) :
    offsetOf (mfrms.enum.map f) gi = offsetOf mfrms gi := by
  unfold offsetOf
  rw [← List.map_take, List.map_map]
  have h1 : (List.length ∘ f) = fun p : ℕ × List ℕ => p.2.length := by
    funext p
    exact hf p
  rw [h1]
  have h2 : (fun p : ℕ × List ℕ => p.2.length) = List.length ∘ Prod.snd := rfl
  have h3 : List.map Prod.snd (List.take gi mfrms.enum) = List.take gi mfrms := by
    rw [List.map_take, enum_map_snd']
  rw [h2, ← List.map_map, h3]

theorem entriesOf_length (em tool : String) (thr : ℚ) (ext : ℕ → ExtReg)
    (mfrms : List (List ℕ)) :
    (entriesOf em tool thr ext mfrms.enum).length = (mfrms.map List.length).sum := by
  unfold entriesOf
  rw [List.length_flatten, List.map_map]
  have h1 : (List.length ∘ fun p : ℕ × List ℕ => p.2.map (alignedEntry em tool thr ext p.1)) =
      List.length ∘ Prod.snd := by
    funext p
    simp
  rw [h1, ← List.map_map, enum_map_snd']

theorem frameOf_alignedEntry (em tool : String) (thr : ℚ) (ext : ℕ → ExtReg) (mi i : ℕ) :
    frameOf (alignedEntry em tool thr ext mi i) = i := by
  unfold alignedEntry
  split <;> rfl

theorem checkTimes_ne_metricErr (times : TimesArg) (nfrm : ℕ) :
    checkTimes times nfrm ≠ .error .valueErrorMetric := by
  cases times with
  | twoD ts =>
    unfold checkTimes
    dsimp only
    split_ifs <;> simp
  | oneD l => simp [checkTimes]
  | otherDim nd => simp [checkTimes]
  | notArray => simp [checkTimes]

theorem mashFrames_ne_metricErr (ts : List (ℚ × ℚ)) (L : ℚ) :
    mashFrames ts L ≠ .error .valueErrorMetric := by
  unfold mashFrames
  dsimp only
  split_ifs <;> simp

theorem except_map_ok {ε α β : Type*} (f : α → β) (x : α) :
    Except.map f (Except.ok x : Except ε α) = .ok (f x) := rfl

theorem eff_spm (m : String) : effectiveMetric "spm" m = m := by
  rw [effectiveMetric, if_neg]
  intro hc
  exact absurd hc.1 (by decide)

theorem eff_dipy_rss : effectiveMetric "dipy" "rss" = "adst" := by
  rw [effectiveMetric, if_pos ⟨rfl, rfl⟩]

theorem motionExceeds_rss (thr r d : ℚ) : motionExceeds "rss" thr r d = decide (r > thr) := by
  unfold motionExceeds
  have h1 : decide ("rss" = "rss") = true := by decide
  have h2 : decide ("rss" = "adst") = false := by decide
  rw [h1, h2, Bool.and_true, Bool.and_false, Bool.or_false]

theorem motionExceeds_adst (thr r d : ℚ) : motionExceeds "adst" thr r d = decide (d > thr) := by
  unfold motionExceeds
  have h1 : decide ("adst" = "rss") = false := by decide
  have h2 : decide ("adst" = "adst") = true := by decide
  rw [h1, h2, Bool.and_true, Bool.and_false, Bool.false_or]

theorem isShort_false_iff (ts : List (ℚ × ℚ)) (L : ℚ) (k : ℕ) :
    isShort ts L k = false ↔ ¬(durOf ts k < L) := by
  simp [isShort]

theorem inWindow_false_iff (ts : List (ℚ × ℚ)) (L : ℚ) (i k : ℕ) :
    inWindow ts L i k = false ↔
      ¬(endT ts k ≤ ((i + 1 : ℕ) : ℚ) * L ∧ ((i : ℕ) : ℚ) * L < endT ts k) := by
  simp [inWindow]

/-- On success, the `faligned` cell at the running-counter position of frame
`i` (the `pi`-th member of mashed group `gi`) holds exactly the aligned
entry the loop body produces for `(gi, i)`. -/
theorem align_frames_faligned_at {nfrm : ℕ} {times : TimesArg} {Cnt : AlignCnt}
    {tool : String} {ext : ℕ → ExtReg} {o : AFOut} {gi pi i : ℕ} {grp : List ℕ}
    (hok : align_frames nfrm times Cnt tool ext = .ok o)
    (hg : o.mashed_frame_idx[gi]? = some grp) (hp : grp[pi]? = some i) :
    o.faligned[offsetOf o.mashed_frame_idx gi + pi]? =
      some (some (alignedEntry (effectiveMetric tool Cnt.reg_metric) tool
        Cnt.reg_thrshld ext gi i)) := by
  obtain ⟨_, ts, hct, hmf, hfal, _⟩ := align_frames_ok_inv hok
  have hlen : (entriesOf (effectiveMetric tool Cnt.reg_metric) tool Cnt.reg_thrshld ext
      o.mashed_frame_idx.enum).length = nfrm := by
    rw [entriesOf_length, mashFrames_flatten_length hmf, (checkTimes_ok_inv hct).2]
  have hgm : (o.mashed_frame_idx.enum.map (fun p =>
      p.2.map (alignedEntry (effectiveMetric tool Cnt.reg_metric) tool
        Cnt.reg_thrshld ext p.1)))[gi]? =
      some (grp.map (alignedEntry (effectiveMetric tool Cnt.reg_metric) tool
        Cnt.reg_thrshld ext gi)) := by
    rw [List.getElem?_map, List.getElem?_enum, hg]
    rfl
  have hpm : (grp.map (alignedEntry (effectiveMetric tool Cnt.reg_metric) tool
      Cnt.reg_thrshld ext gi))[pi]? =
      some (alignedEntry (effectiveMetric tool Cnt.reg_metric) tool
        Cnt.reg_thrshld ext gi i) := by
    rw [List.getElem?_map, hp]
    rfl
  have hflat := flatten_getElem?_offset _ gi _ pi _ hgm hpm
  have hoff : offsetOf (o.mashed_frame_idx.enum.map (fun p =>
      p.2.map (alignedEntry (effectiveMetric tool Cnt.reg_metric) tool
        Cnt.reg_thrshld ext p.1))) gi = offsetOf o.mashed_frame_idx gi :=
    offsetOf_map_enum _ _ (fun p => by simp) gi
  rw [hoff] at hflat
  have hflat' : (entriesOf (effectiveMetric tool Cnt.reg_metric) tool Cnt.reg_thrshld ext
      o.mashed_frame_idx.enum)[offsetOf o.mashed_frame_idx gi + pi]? =
      some (alignedEntry (effectiveMetric tool Cnt.reg_metric) tool
        Cnt.reg_thrshld ext gi i) := hflat
  have hjlt : offsetOf o.mashed_frame_idx gi + pi <
      (entriesOf (effectiveMetric tool Cnt.reg_metric) tool Cnt.reg_thrshld ext
        o.mashed_frame_idx.enum).length := by
    by_contra hc
    rw [List.getElem?_eq_none (by omega)] at hflat'
    exact Option.noConfusion hflat'
  rw [hfal, outerAlign_eq, writeSeq_getElem? _ _ _ (by simp [hlen]) _,
    if_pos ⟨Nat.zero_le _, by omega⟩, Nat.sub_zero, hflat']
  rfl

end Lemmas

section Claims

/-- C10 (amended): the 'Unrecognised registration metric' ValueError is
raised by `align_frames` and by `align_suvr` exactly when
`Cnt['align']['reg_metric']` is neither 'rss' nor 'adst' (`align_frames`
can additionally raise other ValueErrors, for invalid `times` or
inconsistent mashing); and with `reg_tool='dipy'` a configured 'rss' metric
behaves identically to a configured 'adst' metric: the decision metric is
silently switched. -/
theorem claim_C10_metric_validation :
    (∀ (nfrm : ℕ) (times : TimesArg) (Cnt : AlignCnt) (tool : String) (ext : ℕ → ExtReg),
      align_frames nfrm times Cnt tool ext = .error .valueErrorMetric ↔
        Cnt.reg_metric ∉ reg_metric_list) ∧
    (∀ (n : ℕ) (Cnt : AlignCnt) (tool : String) (spmR dist : ℕ → ℕ → ℚ)
        (aff : ℕ → ℕ → String),
      align_suvr n Cnt tool spmR dist aff = .error .valueErrorMetric ↔
        Cnt.reg_metric ∉ reg_metric_list) ∧
    (∀ (nfrm : ℕ) (times : TimesArg) (thr L : ℚ) (dc : Bool) (ext : ℕ → ExtReg),
      align_frames nfrm times ⟨"rss", thr, L, dc⟩ "dipy" ext =
        align_frames nfrm times ⟨"adst", thr, L, dc⟩ "dipy" ext) ∧
    (∀ (n : ℕ) (thr L : ℚ) (dc : Bool) (spmR dist : ℕ → ℕ → ℚ) (aff : ℕ → ℕ → String),
      align_suvr n ⟨"rss", thr, L, dc⟩ "dipy" spmR dist aff =
        align_suvr n ⟨"adst", thr, L, dc⟩ "dipy" spmR dist aff) := by
  refine ⟨?_, ?_, ?_, ?_⟩
  · intro nfrm times Cnt tool ext
    constructor
    · intro h
      by_contra hmem
      unfold align_frames at h
      rw [if_pos hmem] at h
      cases hct : checkTimes times nfrm with
      | error e =>
        rw [hct] at h
        dsimp only at h
        injection h with h
        exact checkTimes_ne_metricErr times nfrm (by rw [hct, h])
      | ok ts =>
        rw [hct] at h
        dsimp only at h
        cases hmf : mashFrames ts Cnt.frame_min_dur with
        | error e =>
          rw [hmf] at h
          dsimp only at h
          injection h with h
          exact mashFrames_ne_metricErr ts Cnt.frame_min_dur (by rw [hmf, h])
        | ok mfrms =>
          rw [hmf] at h
          dsimp only at h
          exact Except.noConfusion h
    · intro h
      unfold align_frames
      rw [if_neg h]
  · intro n Cnt tool spmR dist aff
    constructor
    · intro h
      by_contra hmem
      unfold align_suvr at h
      rw [if_pos hmem] at h
      exact Except.noConfusion h
    · intro h
      unfold align_suvr
      rw [if_neg h]
  · intro nfrm times thr L dc ext
    rfl
  · intro n thr L dc spmR dist aff
    rfl

/-- C10 counterexample to the claim as stated: `align_frames` raises a
ValueError (for 1-D frame times) even though the configured registration
metric 'rss' is recognised, so "raise ValueError only if the metric is
unrecognised" is false. -/
theorem claim_C10_counterexample :
    isErr (align_frames 2 (TimesArg.oneD [3, 4]) ⟨"rss", 1, 30, true⟩ "spm"
      (fun _ => ⟨0, 0, List.replicate 6 0, "z", 0⟩)) = true ∧
    align_frames 2 (TimesArg.oneD [3, 4]) ⟨"rss", 1, 30, true⟩ "spm"
      (fun _ => ⟨0, 0, List.replicate 6 0, "z", 0⟩) = .error .valueErrorTimesDim ∧
    ("rss" ∈ reg_metric_list) := by
  refine ⟨rfl, rfl, by decide⟩

/-- C8: for every `times` argument that is not a list/array, or not
2-dimensional (a 1-D duration list included), or 2-dimensional with a length
different from the number of frames, `align_frames` raises a ValueError;
the outcome is the same for every external registration oracle, i.e. the
error is raised before any registration (or any file output, which in the
source only happens after this validation). -/
theorem claim_C8_times_validation (nfrm : ℕ) (times : TimesArg) (Cnt : AlignCnt)
    (tool : String) (ext ext' : ℕ → ExtReg)
    (h : badTimes times nfrm = true) :
    isErr (align_frames nfrm times Cnt tool ext) = true ∧
    align_frames nfrm times Cnt tool ext = align_frames nfrm times Cnt tool ext' := by
  have hct : ∃ e, checkTimes times nfrm = .error e := by
    cases times with
    | twoD ts =>
      refine ⟨.valueErrorTimesLen, ?_⟩
      unfold checkTimes
      dsimp only
      rw [if_pos ?_]
      have hlen : (frameDur ts).length = ts.length := by simp [frameDur]
      unfold badTimes at h
      rw [hlen]
      simpa using h
    | oneD l => exact ⟨_, rfl⟩
    | otherDim nd => exact ⟨_, rfl⟩
    | notArray => exact ⟨_, rfl⟩
  obtain ⟨e, hcte⟩ := hct
  unfold align_frames
  by_cases hm : Cnt.reg_metric ∈ reg_metric_list
  · rw [if_pos hm, if_pos hm, hcte]
    exact ⟨rfl, rfl⟩
  · rw [if_neg hm, if_neg hm]
    exact ⟨rfl, rfl⟩

/-- C8 witness: a concrete 1-D duration list raises a ValueError and the
result does not depend on the registration externals. -/
theorem claim_C8_witness :
    isErr (align_frames 2 (TimesArg.oneD [3, 4]) ⟨"rss", 1, 30, true⟩ "spm"
      (fun _ => ⟨0, 0, List.replicate 6 0, "a", 0⟩)) = true ∧
    align_frames 2 (TimesArg.oneD [3, 4]) ⟨"rss", 1, 30, true⟩ "spm"
      (fun _ => ⟨0, 0, List.replicate 6 0, "a", 0⟩) =
    align_frames 2 (TimesArg.oneD [3, 4]) ⟨"rss", 1, 30, true⟩ "spm"
      (fun _ => ⟨1, 1, List.replicate 6 1, "b", 1⟩) :=
  claim_C8_times_validation 2 (TimesArg.oneD [3, 4]) ⟨"rss", 1, 30, true⟩ "spm"
    (fun _ => ⟨0, 0, List.replicate 6 0, "a", 0⟩)
    (fun _ => ⟨1, 1, List.replicate 6 1, "b", 1⟩) (by decide)

/-- C7: for a non-empty list of (equally shaped) frames, `save4dnii`
assembles the 4-D array with one NaN-zeroed 3-D frame per input file in
input order, hands it to `array2nii` with the affine/transpose/flip of the
first frame, and returns the array exactly when `retarr` is true. -/
theorem claim_C7_save4dnii (lfrm : List NiiFrame) (fnii descrip : String) (retarr : Bool)
    (tmp : NiiFrame) (rest : List NiiFrame)
    (hcons : lfrm = tmp :: rest)
    (hshape : ∀ f ∈ lfrm, f.shape = tmp.shape) :
    save4dnii lfrm fnii descrip retarr =
      .ok ({ data := lfrm.map (fun f => denan f.vox)
             affine := tmp.affine
             fnii := fnii
             descrip := descrip
             trnsp := (tmp.transpose.indexOf 0, tmp.transpose.indexOf 1,
                       tmp.transpose.indexOf 2)
             flip := tmp.flip },
           if retarr then some (lfrm.map (fun f => denan f.vox)) else none) ∧
    (∀ j : ℕ, (lfrm.map (fun f => denan f.vox))[j]? =
      (lfrm[j]?).map (fun f => denan f.vox)) := by
  subst hcons
  refine ⟨?_, ?_⟩
  · unfold save4dnii
    dsimp only
    rw [if_pos (List.all_eq_true.mpr (fun f hf => decide_eq_true (hshape f hf)))]
  · intro j
    exact List.getElem?_map _ _ _

/-- C7 witness: two concrete frames with NaNs, assembled in order with the
first frame's geometry; the array is returned since `retarr` is true. -/
theorem claim_C7_witness :
    save4dnii [⟨[2], [some 2, none], "A", [0, 1, 2], [1, 1, 1]⟩,
               ⟨[2], [none, some 5], "B", [2, 1, 0], [-1, 1, 1]⟩]
        "f4d.nii.gz" "AmyPET-aligned frames" true =
      .ok ({ data := [[2, 0], [0, 5]], affine := "A", fnii := "f4d.nii.gz",
             descrip := "AmyPET-aligned frames", trnsp := (0, 1, 2), flip := [1, 1, 1] },
           some [[2, 0], [0, 5]]) := by
  have h := claim_C7_save4dnii
    [⟨[2], [some 2, none], "A", [0, 1, 2], [1, 1, 1]⟩,
     ⟨[2], [none, some 5], "B", [2, 1, 0], [-1, 1, 1]⟩]
    "f4d.nii.gz" "AmyPET-aligned frames" true
    ⟨[2], [some 2, none], "A", [0, 1, 2], [1, 1, 1]⟩
    [⟨[2], [none, some 5], "B", [2, 1, 0], [-1, 1, 1]⟩]
    rfl (by decide)
  exact h.1.trans (by decide)

/-- C9: passing the atlas to `extract_vois` as a numpy array mutates the
caller's array in place — afterwards it equals the original with every NaN
replaced by 0 (observably different when a NaN was present, as the concrete
instance shows) — while a PET image passed as an array is returned to the
caller unmodified. -/
theorem claim_C9_atlas_mutation :
    (∀ (impet : ImPet) (atlas : List PVal) (voi_dct : List (String × List ℚ))
        (amsk : Option (List ℚ)),
      (extract_vois impet atlas voi_dct amsk).2.1 = atlas.map (fun v => some (denanV v)) ∧
      (extract_vois impet atlas voi_dct amsk).2.2 = impet) ∧
    (extract_vois (ImPet.d4 [[1]]) [none, some 3] [] none).2.1 = [some 0, some 3] ∧
    [none, some 3] ≠ ([some 0, some 3] : List PVal) := by
  exact ⟨fun _ _ _ _ => ⟨rfl, rfl⟩, by decide, by decide⟩

/-- C6: the claim is right about the intent but the code is wrong — for a
4-D PET image `extract_vois` returns the masked per-frame sums with
`avg = sum / vox_no`, but for a 3-D image (and any other non-4-D array) the
`elif` at proc.py:224 reads `im.ndims`, an attribute numpy arrays do not
have (`ndim`, spelled correctly at proc.py:218, was intended), so the call
raises AttributeError instead of returning (3-D) or raising ValueError
(other dimensionalities). -/
theorem claim_C6_ndims_bug :
    (extract_vois (ImPet.d3 [1]) [some 1] [("voi1", [1])] none).1 =
      .error .attributeErrorNdims ∧
    (extract_vois (ImPet.dOther 2 [1]) [some 1] [("voi1", [1])] none).1 =
      .error .attributeErrorNdims ∧
    (extract_vois (ImPet.d4 [[2], [4]]) [some 1] [("voi1", [1])] none).1 =
      .ok [("voi1", ⟨1, [2, 4], [2, 4]⟩)] := by
  refine ⟨rfl, rfl, ?_⟩
  norm_num [extract_vois, extractLoop, msk2Of, rmskOf, dotQ, denan, denanV]

/-- C3: the claim is right about the intent but the code is wrong — the
trailing comma at align.py:871 makes the local `decay_corr` a one-element
tuple, which is always truthy, so with `Cnt['align']['decay_corr']`
disabled (False) the decay-correction factor applied to the static series
is still `1/exp(-lambda*td)`, which differs from the claimed factor 1
whenever td > 0 (here td = 3600 s with the F18 half-life 6586.26 s). -/
theorem claim_C3_decay_tuple_bug :
    break_dcycrr false [0, 3600] 6586.26 =
      .ok (1 / Real.exp (-(Real.log 2 / 6586.26) * 3600)) ∧
    1 / Real.exp (-(Real.log 2 / 6586.26) * 3600) ≠ 1 := by
  constructor
  · unfold break_dcycrr
    rw [if_pos (by decide : decayCorrLocal false ≠ [])]
    norm_num [npArgmin, List.getD, List.filter, List.range]
  · have hlog : (0 : ℝ) < Real.log 2 := Real.log_pos (by norm_num)
    have hneg : -(Real.log 2 / 6586.26) * 3600 < 0 := by
      have : (0 : ℝ) < Real.log 2 / 6586.26 * 3600 := by positivity
      linarith
    have hlt : Real.exp (-(Real.log 2 / 6586.26) * 3600) < 1 := by
      rw [← Real.exp_zero]
      exact Real.exp_lt_exp.mpr hneg
    have hpos : 0 < Real.exp (-(Real.log 2 / 6586.26) * 3600) := Real.exp_pos _
    exact ne_of_gt (one_lt_one_div hpos hlt)

/-- C1 (amended): for every frame of a successful `align_frames` run and
every non-reference SUVr frame of a successful `align_suvr` run, the frame
is resampled through the stored affine exactly when the EFFECTIVE motion
metric (the configured `Cnt['align']['reg_metric']`, except that
`reg_tool='dipy'` with 'rss' uses the distance metric D) exceeds
`Cnt['align']['reg_thrshld']`; otherwise the original frame image is used
unchanged (copied to the output folder by `align_frames`, referenced
directly by `align_suvr`). -/
theorem claim_C1_resample_iff_effective_metric :
    (∀ (nfrm : ℕ) (times : TimesArg) (Cnt : AlignCnt) (tool : String) (ext : ℕ → ExtReg)
        (o : AFOut) (gi pi i : ℕ) (grp : List ℕ),
      align_frames nfrm times Cnt tool ext = .ok o →
      o.mashed_frame_idx[gi]? = some grp → grp[pi]? = some i →
      ((motionExceeds (effectiveMetric tool Cnt.reg_metric) Cnt.reg_thrshld
          (Rval tool ext gi) (Dval tool ext gi) = true →
        o.faligned[offsetOf o.mashed_frame_idx gi + pi]? =
          some (some (AlignedFile.resampled i (Sfile tool ext gi)))) ∧
       (motionExceeds (effectiveMetric tool Cnt.reg_metric) Cnt.reg_thrshld
          (Rval tool ext gi) (Dval tool ext gi) = false →
        o.faligned[offsetOf o.mashed_frame_idx gi + pi]? =
          some (some (AlignedFile.copied i))))) ∧
    (∀ (n : ℕ) (Cnt : AlignCnt) (tool : String) (spmR dist : ℕ → ℕ → ℚ)
        (aff : ℕ → ℕ → String) (o : SuvrOut) (j i : ℕ),
      align_suvr n Cnt tool spmR dist aff = .ok o →
      ((List.range n).filter (fun x => x ≠ o.rfrm))[j]? = some i →
      ((motionExceeds (effectiveMetric tool Cnt.reg_metric) Cnt.reg_thrshld
          (Rmat tool spmR o.rfrm i) (Dmat dist o.rfrm i) = true →
        o.fnii_aligned[j + 1]? = some (AlignedFile.resampled i (some (aff o.rfrm i)))) ∧
       (motionExceeds (effectiveMetric tool Cnt.reg_metric) Cnt.reg_thrshld
          (Rmat tool spmR o.rfrm i) (Dmat dist o.rfrm i) = false →
        o.fnii_aligned[j + 1]? = some (AlignedFile.original i)))) := by
  constructor
  · intro nfrm times Cnt tool ext o gi pi i grp hok hg hp
    have hat := align_frames_faligned_at hok hg hp
    constructor
    · intro hmot
      rw [hat]
      unfold alignedEntry
      rw [if_pos hmot]
    · intro hmot
      rw [hat]
      unfold alignedEntry
      rw [if_neg (by rw [hmot]; exact Bool.false_ne_true)]
  · intro n Cnt tool spmR dist aff o j i hok hj
    obtain ⟨_, _, hlist⟩ := align_suvr_ok_inv hok
    have hat : o.fnii_aligned[j + 1]? =
        some (if motionExceeds (effectiveMetric tool Cnt.reg_metric) Cnt.reg_thrshld
            (Rmat tool spmR o.rfrm i) (Dmat dist o.rfrm i)
          then AlignedFile.resampled i (some (aff o.rfrm i))
          else AlignedFile.original i) := by
      rw [hlist, List.getElem?_cons_succ, List.getElem?_map, hj]
      rfl
    constructor
    · intro hmot
      rw [hat, if_pos hmot]
    · intro hmot
      rw [hat, if_neg (by rw [hmot]; exact Bool.false_ne_true)]

/-- C1 counterexample to the claim as stated: with `reg_tool='dipy'` and
the CONFIGURED metric 'rss', the code resamples frame 0 although the 'rss'
metric value `R[0]` (returned in `outdct['metric']`) is 0 and does not
exceed the threshold 1 — the decision was actually taken on the distance
metric `D[0] = 5`. -/
theorem claim_C1_counterexample :
    (align_frames 1 (TimesArg.twoD [(0, 100)]) ⟨"rss", 1, 30, true⟩ "dipy"
      (fun _ => ⟨0, 0, [], "d", 5⟩)).map (fun o => (o.faligned[0]?, o.metric[0]?)) =
      .ok (some (some (AlignedFile.resampled 0 (some "d"))), some 0) ∧
    ¬((0 : ℚ) > 1) := by
  constructor
  · norm_num [align_frames, reg_metric_list, effectiveMetric, checkTimes, frameDur,
      mashFrames, mashWindows, windowGrp, inWindow, nset, shortSum, shortIdx,
      isShort, durOf, endT, longSingles, List.filter, List.range_succ,
      outerAlign, innerAlign, outerRT, innerRT, alignedEntry, motionExceeds,
      Rval, Dval, RTrow, Sfile, List.enum, List.enumFrom, List.replicate, Except.map]
  · norm_num

/-- C1 witness: a concrete SPM run of each function in which the effective
metric exceeds the threshold and the output file is the resampled one. -/
theorem claim_C1_witness :
    (align_frames 3 (TimesArg.twoD [(0, 10), (10, 20), (20, 40)]) ⟨"rss", 1, 20, true⟩ "spm"
      (fun _ => ⟨2, 0, [1, 0, 0, 0, 0, 0], "w", 3⟩)).map (fun o => o.faligned[0]?) =
      .ok (some (some (AlignedFile.resampled 0 (some "w")))) ∧
    (align_suvr 2 ⟨"rss", 1, 30, true⟩ "spm" (fun _ _ => 5) (fun _ _ => 0)
      (fun _ _ => "s")).map (fun o => o.fnii_aligned[1]?) =
      .ok (some (AlignedFile.resampled 1 (some "s"))) := by
  have heval : align_frames 3 (TimesArg.twoD [(0, 10), (10, 20), (20, 40)])
      ⟨"rss", 1, 20, true⟩ "spm" (fun _ => ⟨2, 0, [1, 0, 0, 0, 0, 0], "w", 3⟩) = .ok
      { mashed_frame_idx := [[0, 1], [2]]
        affines := [some "w", some "w"]
        metric := [2, 2]
        metric2 := [3, 3]
        rot_trans := [[1, 0, 0, 0, 0, 0], [1, 0, 0, 0, 0, 0], [1, 0, 0, 0, 0, 0]]
        faligned := [some (.resampled 0 (some "w")), some (.resampled 1 (some "w")),
                     some (.resampled 2 (some "w"))] } := by
    norm_num [align_frames, reg_metric_list, effectiveMetric, checkTimes, frameDur,
      mashFrames, mashWindows, windowGrp, inWindow, nset, shortSum, shortIdx,
      isShort, durOf, endT, longSingles, List.filter, List.range_succ,
      outerAlign, innerAlign, outerRT, innerRT, alignedEntry, motionExceeds,
      Rval, Dval, RTrow, Sfile, List.enum, List.enumFrom, List.replicate]
    refine ⟨?_, ?_, ?_⟩ <;> intro h <;> exact absurd h (by decide)
  have heval2 : align_suvr 2 ⟨"rss", 1, 30, true⟩ "spm" (fun _ _ => 5) (fun _ _ => 0)
      (fun _ _ => "s") = .ok
      { rfrm := 0
        fnii_aligned := [.original 0, .resampled 1 (some "s")] } := by
    norm_num [align_suvr, reg_metric_list, eff_spm, motionExceeds_rss, npArgmin,
      refTotals, colSum, rowSum, Rmat, Dmat, List.filter, List.range_succ, List.getD]
  constructor
  · have h := (claim_C1_resample_iff_effective_metric.1 3
      (TimesArg.twoD [(0, 10), (10, 20), (20, 40)]) ⟨"rss", 1, 20, true⟩ "spm"
      (fun _ => ⟨2, 0, [1, 0, 0, 0, 0, 0], "w", 3⟩) _ 0 0 0 [0, 1] heval rfl rfl).1
      (by rw [eff_spm, motionExceeds_rss, decide_eq_true_eq]; norm_num [Rval])
    rw [heval, except_map_ok]
    refine congrArg Except.ok ?_
    have hidx : offsetOf ([[0, 1], [2]] : List (List ℕ)) 0 + 0 = 0 := by decide
    rw [hidx] at h
    rw [h]
    rfl
  · have h := (claim_C1_resample_iff_effective_metric.2 2 ⟨"rss", 1, 30, true⟩ "spm"
      (fun _ _ => 5) (fun _ _ => 0) (fun _ _ => "s") _ 0 1 heval2 (by decide)).1
      (by rw [eff_spm, motionExceeds_rss, decide_eq_true_eq]; norm_num [Rmat])
    rw [heval2, except_map_ok]
    exact congrArg Except.ok h

/-- C4 (amended): `align_suvr` selects as reference frame the index of the
first minimum of the per-frame totals (row sum + column sum) of the
pairwise `R` (rss) matrix REGARDLESS of `Cnt['align']['reg_metric']`; the
`D`-based argmin is computed and printed but never used. -/
theorem claim_C4_reference_frame (n : ℕ) (Cnt : AlignCnt) (tool : String)
    (spmR dist : ℕ → ℕ → ℚ) (aff : ℕ → ℕ → String) (o : SuvrOut)
    (hn : 0 < n)
    (hok : align_suvr n Cnt tool spmR dist aff = .ok o) :
    o.rfrm = npArgmin (refTotals (Rmat tool spmR) n) ∧
    o.rfrm < n ∧
    (∀ i, i < n → (refTotals (Rmat tool spmR) n).getD o.rfrm 0 ≤
      (refTotals (Rmat tool spmR) n).getD i 0) ∧
    (∀ i, i < o.rfrm → (refTotals (Rmat tool spmR) n).getD o.rfrm 0 <
      (refTotals (Rmat tool spmR) n).getD i 0) := by
  obtain ⟨_, hr, _⟩ := align_suvr_ok_inv hok
  have hlen : (refTotals (Rmat tool spmR) n).length = n := by simp [refTotals]
  have hne : refTotals (Rmat tool spmR) n ≠ [] := by
    intro hc
    rw [hc] at hlen
    simp at hlen
    omega
  refine ⟨hr, ?_, ?_, ?_⟩
  · rw [hr]
    have hlt := npArgmin_lt_length _ hne
    rw [hlen] at hlt
    exact hlt
  · intro i hi
    rw [hr]
    exact npArgmin_le _ i (by rw [hlen]; exact hi)
  · intro i hi
    rw [hr] at hi ⊢
    exact npArgmin_first _ i hi

/-- C4 counterexample to the claim as stated: with `reg_metric='adst'` the
claim demands the `D`-based argmin (frame 0 here), but the code selects the
`R`-based argmin (frame 1). -/
theorem claim_C4_counterexample :
    (align_suvr 3 ⟨"adst", 1, 30, true⟩ "spm"
      (fun i j => if (i = 0 ∧ j = 1) ∨ (i = 1 ∧ j = 0) ∨ (i = 0 ∧ j = 2) ∨
        (i = 2 ∧ j = 0) then 1 else 0)
      (fun i j => if (i = 1 ∧ j = 2) ∨ (i = 2 ∧ j = 1) then 1 else 0)
      (fun _ _ => "s")).map (fun o => o.rfrm) = .ok 1 ∧
    npArgmin (refTotals (Dmat
      (fun i j => if (i = 1 ∧ j = 2) ∨ (i = 2 ∧ j = 1) then 1 else 0)) 3) = 0 ∧
    (1 : ℕ) ≠ 0 := by
  refine ⟨?_, ?_, by decide⟩
  · norm_num [align_suvr, reg_metric_list, npArgmin, refTotals, colSum, rowSum,
      Rmat, Dmat, List.range_succ, List.getD]
    rfl
  · norm_num [npArgmin, refTotals, colSum, rowSum, Dmat, List.range_succ, List.getD]

/-- C4 witness: a concrete two-frame run; the reference frame is the first
index minimising the `R` totals. -/
theorem claim_C4_witness :
    (align_suvr 2 ⟨"rss", 1, 30, true⟩ "spm" (fun _ _ => 1) (fun _ _ => 0)
      (fun _ _ => "s")).map (fun o => o.rfrm) = .ok 0 ∧
    (refTotals (Rmat "spm" (fun _ _ => 1)) 2).getD 0 0 ≤
      (refTotals (Rmat "spm" (fun _ _ => 1)) 2).getD 1 0 := by
  have heval : align_suvr 2 ⟨"rss", 1, 30, true⟩ "spm" (fun _ _ => 1) (fun _ _ => 0)
      (fun _ _ => "s") = .ok
      { rfrm := 0
        fnii_aligned := [.original 0, .original 1] } := by
    norm_num [align_suvr, reg_metric_list, eff_spm, motionExceeds_rss, npArgmin,
      refTotals, colSum, rowSum, Rmat, Dmat, List.filter, List.range_succ, List.getD]
  have h := claim_C4_reference_frame 2 ⟨"rss", 1, 30, true⟩ "spm" (fun _ _ => 1)
    (fun _ _ => 0) (fun _ _ => "s") _ (by omega) heval
  constructor
  · rw [heval, except_map_ok]
  · exact h.2.2.1 1 (by omega)

/-- C5 (amended): entry `j` of `'faligned'` is the aligned output of the
`j`-th frame in MASHED-GROUP TRAVERSAL order (window groups first, then the
long-frame singletons) — i.e. of the `j`-th element of the flattened
`'mashed_frame_idx'` — not of input frame `j` in general; and, whenever the
flattened grouping has no duplicates, row `i` of `'rot_trans'` holds the six
rotation/translation parameters estimated for input frame `i`'s mashed
group, for every frame `i`. -/
theorem claim_C5_output_order :
    (∀ (nfrm : ℕ) (times : TimesArg) (Cnt : AlignCnt) (tool : String) (ext : ℕ → ExtReg)
        (o : AFOut) (j k : ℕ),
      align_frames nfrm times Cnt tool ext = .ok o →
      o.mashed_frame_idx.flatten[j]? = some k →
      ∃ e, o.faligned[j]? = some (some e) ∧ frameOf e = k) ∧
    (∀ (nfrm : ℕ) (times : TimesArg) (Cnt : AlignCnt) (tool : String) (ext : ℕ → ExtReg)
        (o : AFOut) (gi i : ℕ) (grp : List ℕ),
      align_frames nfrm times Cnt tool ext = .ok o →
      o.mashed_frame_idx.flatten.Nodup →
      o.mashed_frame_idx[gi]? = some grp → i ∈ grp → i < nfrm →
      o.rot_trans[i]? = some (RTrow tool ext gi)) := by
  constructor
  · intro nfrm times Cnt tool ext o j k hok hj
    obtain ⟨gi, grp, pi, hg, hp, hjeq⟩ := flatten_getElem?_inv _ j k hj
    subst hjeq
    refine ⟨alignedEntry (effectiveMetric tool Cnt.reg_metric) tool Cnt.reg_thrshld ext gi k,
      align_frames_faligned_at hok hg hp, frameOf_alignedEntry _ _ _ _ _ _⟩
  · intro nfrm times Cnt tool ext o gi i grp hok hnd hg hi hilt
    obtain ⟨_, ts, hct, hmf, _, hrt⟩ := align_frames_ok_inv hok
    rw [hrt]
    have hnd' : ((o.mashed_frame_idx.enum.map Prod.snd).flatten).Nodup := by
      rw [enum_map_snd']
      exact hnd
    have hmem : (gi, grp) ∈ o.mashed_frame_idx.enum := by
      have hsome : o.mashed_frame_idx.enum[gi]? = some (gi, grp) := by
        rw [List.getElem?_enum, hg]
        rfl
      exact List.get?_mem (by rw [List.get?_eq_getElem?]; exact hsome)
    exact outerRT_getElem?_mem tool ext _ _ gi grp i hnd' hmem hi (by simpa using hilt)

/-- C5 counterexample to the claim as stated: a short frame following a
long one is traversed first, so entry 0 of `'faligned'` is the aligned file
of input frame 1, not of input frame 0. -/
theorem claim_C5_counterexample :
    (align_frames 3 (TimesArg.twoD [(0, 100), (0, 15), (15, 30)]) ⟨"rss", 1000000, 30, true⟩
      "spm" (fun _ => ⟨0, 0, [0, 0, 0, 0, 0, 0], "z", 0⟩)).map
      (fun o => (o.faligned[0]?, o.mashed_frame_idx)) =
      .ok (some (some (AlignedFile.copied 1)), [[1, 2], [0]]) ∧
    frameOf (AlignedFile.copied 1) ≠ 0 := by
  constructor
  · norm_num [align_frames, reg_metric_list, effectiveMetric, checkTimes, frameDur,
      mashFrames, mashWindows, windowGrp, inWindow, nset, shortSum, shortIdx,
      isShort, durOf, endT, longSingles, List.filter, List.range_succ,
      outerAlign, innerAlign, outerRT, innerRT, alignedEntry, motionExceeds,
      Rval, Dval, RTrow, Sfile, List.enum, List.enumFrom, List.replicate, Except.map]
  · decide

/-- C5 witness: on a concrete run, the entry at traversal position 2 is the
aligned output of flattened-grouping element 2, and `rot_trans` row 1 holds
the parameters of frame 1's mashed group. -/
theorem claim_C5_witness :
    (align_frames 3 (TimesArg.twoD [(0, 10), (10, 20), (20, 40)]) ⟨"rss", 1, 20, true⟩ "spm"
      (fun _ => ⟨2, 0, [1, 0, 0, 0, 0, 0], "w", 3⟩)).map
      (fun o => (o.rot_trans[1]?, o.faligned[2]?, o.mashed_frame_idx.flatten[2]?)) =
      .ok (some [1, 0, 0, 0, 0, 0], some (some (AlignedFile.resampled 2 (some "w"))),
        some 2) ∧
    frameOf (AlignedFile.resampled 2 (some "w")) = 2 := by
  have heval : align_frames 3 (TimesArg.twoD [(0, 10), (10, 20), (20, 40)])
      ⟨"rss", 1, 20, true⟩ "spm" (fun _ => ⟨2, 0, [1, 0, 0, 0, 0, 0], "w", 3⟩) = .ok
      { mashed_frame_idx := [[0, 1], [2]]
        affines := [some "w", some "w"]
        metric := [2, 2]
        metric2 := [3, 3]
        rot_trans := [[1, 0, 0, 0, 0, 0], [1, 0, 0, 0, 0, 0], [1, 0, 0, 0, 0, 0]]
        faligned := [some (.resampled 0 (some "w")), some (.resampled 1 (some "w")),
                     some (.resampled 2 (some "w"))] } := by
    norm_num [align_frames, reg_metric_list, effectiveMetric, checkTimes, frameDur,
      mashFrames, mashWindows, windowGrp, inWindow, nset, shortSum, shortIdx,
      isShort, durOf, endT, longSingles, List.filter, List.range_succ,
      outerAlign, innerAlign, outerRT, innerRT, alignedEntry, motionExceeds,
      Rval, Dval, RTrow, Sfile, List.enum, List.enumFrom, List.replicate]
    refine ⟨?_, ?_, ?_⟩ <;> intro h <;> exact absurd h (by decide)
  have hrt := claim_C5_output_order.2 3 (TimesArg.twoD [(0, 10), (10, 20), (20, 40)])
    ⟨"rss", 1, 20, true⟩ "spm" (fun _ => ⟨2, 0, [1, 0, 0, 0, 0, 0], "w", 3⟩) _ 0 1 [0, 1]
    heval (by decide) rfl (by decide) (by decide)
  obtain ⟨e, he, hf⟩ := claim_C5_output_order.1 3
    (TimesArg.twoD [(0, 10), (10, 20), (20, 40)]) ⟨"rss", 1, 20, true⟩ "spm"
    (fun _ => ⟨2, 0, [1, 0, 0, 0, 0, 0], "w", 3⟩) _ 2 2 heval (by decide)
  constructor
  · rw [heval, except_map_ok]
    refine congrArg Except.ok ?_
    have hrt' : ([[1, 0, 0, 0, 0, 0], [1, 0, 0, 0, 0, 0],
        [1, 0, 0, 0, 0, 0]] : List (List ℚ))[1]? =
        some (RTrow "spm" (fun _ => ⟨2, 0, [1, 0, 0, 0, 0, 0], "w", 3⟩) 0) := hrt
    have hrtval : RTrow "spm" (fun _ => (⟨2, 0, [1, 0, 0, 0, 0, 0], "w", 3⟩ : ExtReg)) 0 =
        [1, 0, 0, 0, 0, 0] := by
      rw [RTrow, if_pos rfl]
    rw [hrt', hrtval]
    rfl
  · have he' : some (some e) = some (some (AlignedFile.resampled 2 (some "w"))) :=
      he.symm.trans rfl
    have : e = AlignedFile.resampled 2 (some "w") := by
      injection (Option.some.inj he')
    rw [← this, hf]

/-- C2 (amended): for every `align_frames` call that returns, with a
positive `frame_min_dur` and PROVIDED no frame of duration at least
`frame_min_dur` has its end time inside one of the mashing windows
`(i*L, (i+1)*L]`, the returned `'mashed_frame_idx'` grouping is a partition
of the frame indices `{0,...,nfrm-1}`: every index appears in exactly one
group, and every long frame forms a singleton group.  (Without that proviso
the cardinality checks can pass on a non-partition, see the
counterexample, so the code does NOT raise ValueError in every other
case.) -/
theorem claim_C2_mashing_partition (nfrm : ℕ) (times : TimesArg) (Cnt : AlignCnt)
    (tool : String) (ext : ℕ → ExtReg) (o : AFOut) (ts : List (ℚ × ℚ))
    (hts : checkTimes times nfrm = .ok ts)
    (hL : 0 < Cnt.frame_min_dur)
    (hlong : ∀ k, k < ts.length → isShort ts Cnt.frame_min_dur k = false →
      ∀ i, i < nset ts Cnt.frame_min_dur → inWindow ts Cnt.frame_min_dur i k = false)
    (hok : align_frames nfrm times Cnt tool ext = .ok o) :
    (∀ k, k < nfrm → o.mashed_frame_idx.flatten.count k = 1) ∧
    (∀ k, k < nfrm → isShort ts Cnt.frame_min_dur k = false →
      [k] ∈ o.mashed_frame_idx) := by
  obtain ⟨_, ts', hct, hmf, _, _⟩ := align_frames_ok_inv hok
  have hts' : ts' = ts := by
    rw [hct] at hts
    exact Except.ok.inj hts
  subst hts'
  have hlen : ts'.length = nfrm := (checkTimes_ok_inv hct).2
  have hmain := mashFrames_partition ts' Cnt.frame_min_dur o.mashed_frame_idx hL hlong hmf
  exact ⟨fun k hk => hmain.1 k (by omega), fun k hk hs => hmain.2 k (by omega) hs⟩

/-- C2 counterexample to the claim as stated: a frame of duration exactly
`frame_min_dur` whose end time lands in the mashing window is put BOTH in
the window group and in a singleton group, while a short frame whose end
time lies beyond the windows is dropped; the cardinality checks still pass
and no ValueError is raised, yet the grouping is not a partition. -/
theorem claim_C2_counterexample :
    (align_frames 3 (TimesArg.twoD [(0, 30), (5, 30), (31, 36)]) ⟨"rss", 100, 30, true⟩
      "spm" (fun _ => ⟨0, 0, [0, 0, 0, 0, 0, 0], "z", 0⟩)).map
      (fun o => o.mashed_frame_idx) = .ok [[0, 1], [0]] ∧
    ([[0, 1], [0]] : List (List ℕ)).flatten.count 0 = 2 ∧
    ([[0, 1], [0]] : List (List ℕ)).flatten.count 2 = 0 ∧
    (2 : ℕ) < 3 := by
  refine ⟨?_, by decide, by decide, by decide⟩
  norm_num [align_frames, reg_metric_list, effectiveMetric, checkTimes, frameDur,
    mashFrames, mashWindows, windowGrp, inWindow, nset, shortSum, shortIdx,
    isShort, durOf, endT, longSingles, List.filter, List.range_succ,
    outerAlign, innerAlign, outerRT, innerRT, alignedEntry, motionExceeds,
    Rval, Dval, RTrow, Sfile, List.enum, List.enumFrom, List.replicate, Except.map]

/-- C2 witness: a concrete run with two short frames mashed into one window
and one long singleton; every frame index appears in exactly one group. -/
theorem claim_C2_witness :
    (align_frames 3 (TimesArg.twoD [(0, 10), (10, 20), (20, 40)]) ⟨"rss", 1, 20, true⟩ "spm"
      (fun _ => ⟨2, 0, [1, 0, 0, 0, 0, 0], "w", 3⟩)).map
      (fun o => (o.mashed_frame_idx.flatten.count 0, o.mashed_frame_idx.flatten.count 1,
        o.mashed_frame_idx.flatten.count 2, decide ([2] ∈ o.mashed_frame_idx))) =
      .ok (1, 1, 1, true) := by
  have heval : align_frames 3 (TimesArg.twoD [(0, 10), (10, 20), (20, 40)])
      ⟨"rss", 1, 20, true⟩ "spm" (fun _ => ⟨2, 0, [1, 0, 0, 0, 0, 0], "w", 3⟩) = .ok
      { mashed_frame_idx := [[0, 1], [2]]
        affines := [some "w", some "w"]
        metric := [2, 2]
        metric2 := [3, 3]
        rot_trans := [[1, 0, 0, 0, 0, 0], [1, 0, 0, 0, 0, 0], [1, 0, 0, 0, 0, 0]]
        faligned := [some (.resampled 0 (some "w")), some (.resampled 1 (some "w")),
                     some (.resampled 2 (some "w"))] } := by
    norm_num [align_frames, reg_metric_list, effectiveMetric, checkTimes, frameDur,
      mashFrames, mashWindows, windowGrp, inWindow, nset, shortSum, shortIdx,
      isShort, durOf, endT, longSingles, List.filter, List.range_succ,
      outerAlign, innerAlign, outerRT, innerRT, alignedEntry, motionExceeds,
      Rval, Dval, RTrow, Sfile, List.enum, List.enumFrom, List.replicate]
    refine ⟨?_, ?_, ?_⟩ <;> intro h <;> exact absurd h (by decide)
  have hmain := claim_C2_mashing_partition 3 (TimesArg.twoD [(0, 10), (10, 20), (20, 40)])
    ⟨"rss", 1, 20, true⟩ "spm" (fun _ => ⟨2, 0, [1, 0, 0, 0, 0, 0], "w", 3⟩) _
    [(0, 10), (10, 20), (20, 40)] rfl (by norm_num)
    (by
      have hn1 : nset [((0 : ℚ), (10 : ℚ)), (10, 20), (20, 40)] 20 = 1 := by
        norm_num [nset, shortSum, shortIdx, isShort, durOf, List.filter,
          List.range_succ]
      intro k hk hs i hi
      rw [hn1] at hi
      have hk3 : k < 3 := by simpa using hk
      have hi0 : i = 0 := by omega
      subst hi0
      rw [isShort_false_iff] at hs
      match k, hk3 with
      | 0, _ => exact absurd (by norm_num [durOf]) hs
      | 1, _ => exact absurd (by norm_num [durOf]) hs
      | 2, _ =>
        rw [inWindow_false_iff]
        norm_num [endT])
    heval
  have h0 := hmain.1 0 (by omega)
  have h1 := hmain.1 1 (by omega)
  have h2 := hmain.1 2 (by omega)
  rw [heval, except_map_ok]
  refine congrArg Except.ok ?_
  dsimp only
  rw [h0, h1, h2]
  rfl

end Claims

end AmyPET
